import Mathlib

/-!
Verification model of the training SPA's navigation-and-persistence engine
(`src/app.js`).  JS strings are modelled as lists of Unicode code points
(`Str := List Nat`); the browser's `URLSearchParams` encode/decode (used by
`buildHash` / `getStateFromHash`) is modelled down to UTF-8 percent-coding.
Network fetches are oracles `Str → Option _` (`none` = failed fetch, rejected
response, or malformed payload — anything that throws).  DOM rendering is out
of scope; observable side effects (fetches, history pushes, durable-storage
writes, error surfacing) are collected in an effect list.
-/

namespace Training

/-- JS strings, as lists of Unicode code points. -/
abbrev Str := List Nat

/-- Convenience for writing concrete strings. -/
def strLit (s : String) : Str := s.data.map Char.toNat

/-- ASCII decimal digit. -/
def isDigitCp (c : Nat) : Bool := 48 ≤ c && c ≤ 57

/-- Whitespace skipped by JS `parseInt` (the common characters). -/
def isWsCp (c : Nat) : Bool := c == 32 || c == 9 || c == 10 || c == 13 || c == 11 || c == 12

/-- Value of a hex digit (0-9, A-F, a-f). -/
def hexVal (c : Nat) : Option Nat :=
  if 48 ≤ c && c ≤ 57 then some (c - 48)
  else if 65 ≤ c && c ≤ 70 then some (c - 55)
  else if 97 ≤ c && c ≤ 102 then some (c - 87)
  else none

/-- Uppercase hex digit for a nibble (WHATWG percent-encoding uses uppercase). -/
def hexDigitCh (n : Nat) : Nat := if n < 10 then 48 + n else 55 + n

/-- UTF-8 bytes of one code point. -/
def utf8Bytes (c : Nat) : List Nat :=
  if c < 0x80 then [c]
  else if c < 0x800 then [0xC0 + c / 0x40, 0x80 + c % 0x40]
  else if c < 0x10000 then [0xE0 + c / 0x1000, 0x80 + c / 0x40 % 0x40, 0x80 + c % 0x40]
  else [0xF0 + c / 0x40000, 0x80 + c / 0x1000 % 0x40, 0x80 + c / 0x40 % 0x40, 0x80 + c % 0x40]

/-- Decode a UTF-8 byte list back to code points (lenient: U+FFFD on truncated
sequences), modelling the text decoding done by `URLSearchParams`. -/
def utf8Decode : List Nat → Str
  | [] => []
  | b :: bs =>
    if b < 0x80 then b :: utf8Decode bs
    else if b < 0xC0 then 0xFFFD :: utf8Decode bs
    else
      match bs with
      | [] => [0xFFFD]
      | b2 :: bs2 =>
        if b < 0xE0 then ((b - 0xC0) * 0x40 + b2 % 0x40) :: utf8Decode bs2
        else
          match bs2 with
          | [] => [0xFFFD]
          | b3 :: bs3 =>
            if b < 0xF0 then
              ((b - 0xE0) * 0x1000 + b2 % 0x40 * 0x40 + b3 % 0x40) :: utf8Decode bs3
            else
              match bs3 with
              | [] => [0xFFFD]
              | b4 :: bs4 =>
                ((b - 0xF0) * 0x40000 + b2 % 0x40 * 0x1000 + b3 % 0x40 * 0x40 + b4 % 0x40) ::
                  utf8Decode bs4

/-- Code points the urlencoded serialiser emits verbatim: ASCII alphanumerics
and `*`, `-`, `.`, `_`. -/
def isSafeCp (c : Nat) : Bool :=
  (48 ≤ c && c ≤ 57) || (65 ≤ c && c ≤ 90) || (97 ≤ c && c ≤ 122) ||
    c == 42 || c == 45 || c == 46 || c == 95

def concatMap (f : α → List β) : List α → List β
  | [] => []
  | x :: xs => f x ++ concatMap f xs

/-- Percent-encoding of one byte: `%XX`. -/
def percentByte (b : Nat) : Str := [37, hexDigitCh (b / 16), hexDigitCh (b % 16)]

/-- application/x-www-form-urlencoded serialisation of one code point:
safe code points verbatim, space as `+`, anything else as percent-encoded
UTF-8 bytes. -/
def encodeCp (c : Nat) : Str :=
  if isSafeCp c then [c] else if c == 32 then [43] else concatMap percentByte (utf8Bytes c)

/-- urlencoded serialisation of a string (`URLSearchParams.toString`). -/
def formEncode (s : Str) : Str := concatMap encodeCp s

/-- urlencoded parsing, byte phase: `+` is a space, `%XX` with valid hex is a
byte, a stray `%` stays literal, every other code point contributes its UTF-8
bytes. -/
def percentDecodeBytes : Str → List Nat
  | [] => []
  | 43 :: rest => 32 :: percentDecodeBytes rest
  | 37 :: h1 :: h2 :: rest2 =>
      match hexVal h1, hexVal h2 with
      | some v1, some v2 => (v1 * 16 + v2) :: percentDecodeBytes rest2
      | _, _ => utf8Bytes 37 ++ percentDecodeBytes (h1 :: h2 :: rest2)
  | c :: rest => utf8Bytes c ++ percentDecodeBytes rest

/-- urlencoded decoding of one name or value. -/
def formDecode (s : Str) : Str := utf8Decode (percentDecodeBytes s)

/-- Every code point of the string is a Unicode scalar-range value (true of
any actual JS string). -/
def validStr (s : Str) : Bool := s.all (· < 0x110000)

/-- Split a string on a separator code point. -/
def splitOnCh (sep : Nat) : Str → List Str
  | [] => [[]]
  | c :: cs =>
    match splitOnCh sep cs with
    | [] => [[c]]
    | h :: t => if c == sep then [] :: h :: t else (c :: h) :: t

/-- Split at the first occurrence of a separator: `(before, after)`; if the
separator is absent the whole string is `before` and `after` is empty. -/
def splitFirstCh (sep : Nat) : Str → Str × Str
  | [] => ([], [])
  | c :: cs =>
    if c == sep then ([], cs)
    else
      let r := splitFirstCh sep cs
      (c :: r.1, r.2)

/-- Does the string start with the given code point? -/
def startsWithCh (c : Nat) : Str → Bool
  | [] => false
  | d :: _ => d == c

/-- First-match association lookup (JS `Map.get` / object property read). -/
def alookup (k : Str) : List (Str × α) → Option α
  | [] => none
  | e :: rest => if e.1 = k then some e.2 else alookup k rest

/-- Association update (JS `Map.set` / object property write): replaces the
first entry with the key in place, else appends. -/
def assocSet (k : Str) (v : α) : List (Str × α) → List (Str × α)
  | [] => [(k, v)]
  | e :: rest => if e.1 = k then (k, v) :: rest else e :: assocSet k v rest

/-- Association delete (JS `delete obj[k]`). -/
def assocRemove (k : Str) (l : List (Str × α)) : List (Str × α) :=
  l.filter (fun e => e.1 ≠ k)

/-- Number of entries carrying the key. -/
def countKey (k : Str) (l : List (Str × α)) : Nat := l.countP (fun e => e.1 = k)

/-- `new URLSearchParams(init)` on a string: drop a leading `?`, split on `&`,
skip empty pieces, split each piece at its first `=` (missing `=` means empty
value) and form-decode both sides. -/
def parseParams (s : Str) : List (Str × Str) :=
  let s1 := if startsWithCh 63 s then s.drop 1 else s
  (splitOnCh 38 s1).filterMap fun piece =>
    if piece.isEmpty then none
    else
      let nv := splitFirstCh 61 piece
      some (formDecode nv.1, formDecode nv.2)

/-- `URLSearchParams.get`: decoded value of the first pair with the name,
`null` if absent. -/
def getParam (ps : List (Str × Str)) (k : Str) : Option Str :=
  (ps.find? (fun p => p.1 = k)).map (·.2)

/-- Serialise one pair as `name=value`, urlencoded. -/
def serializePair (p : Str × Str) : Str := formEncode p.1 ++ 61 :: formEncode p.2

/-- Join pre-serialised pairs with `&`. -/
def joinAmp : List Str → Str
  | [] => []
  | [x] => x
  | x :: xs => x ++ 38 :: joinAmp xs

/-- `URLSearchParams.toString`. -/
def serializeParams (ps : List (Str × Str)) : Str := joinAmp (ps.map serializePair)

/-- Value of a digit string (used only on all-digit strings). -/
def digitsToNat (s : Str) : Nat := s.foldl (fun a d => a * 10 + (d - 48)) 0

/-- Decimal digits of a natural number, with fuel for structural recursion. -/
def natToDigitsF : Nat → Nat → Str
  | 0, _ => []
  | fuel + 1, n => if n < 10 then [48 + n] else natToDigitsF fuel (n / 10) ++ [48 + n % 10]

/-- Decimal digits of a natural number. -/
def natToDigits (n : Nat) : Str := natToDigitsF (n + 1) n

/-- JS ToString of an integer-valued number. -/
def intToStr (i : Int) : Str :=
  if i < 0 then 45 :: natToDigits (-i).toNat else natToDigits i.toNat

/-- Longest leading digit run, as a number; `none` when there is none (NaN). -/
def parseDigits (s : Str) : Option Nat :=
  let ds := s.takeWhile isDigitCp
  if ds.isEmpty then none else some (digitsToNat ds)

/-- JS `parseInt(s, 10)`: skip whitespace, optional sign, longest digit run;
`none` models NaN. -/
def parseIntJS (s : Str) : Option Int :=
  match s.dropWhile isWsCp with
  | 45 :: rest => (parseDigits rest).map (fun n => -(n : Int))
  | 43 :: rest => (parseDigits rest).map (fun n => (n : Int))
  | t => (parseDigits t).map (fun n => (n : Int))

/-- Strip a literal pattern from the front of a string. -/
def stripStr : Str → Str → Option Str
  | [], s => some s
  | _ :: _, [] => none
  | p :: ps, c :: cs => if c == p then stripStr ps cs else none

/-- Match of the regex `#page-(\d+)` anchored at the start of the string:
the captured (maximal) digit run. -/
def legacyAt (s : Str) : Option Str :=
  match stripStr (strLit "#page-") s with
  | some rest =>
    let ds := rest.takeWhile isDigitCp
    if ds.isEmpty then none else some ds
  | none => none

/-- `hash.match(/#page-(\d+)/)` — leftmost match anywhere in the string,
returning the captured digit run. -/
def legacyMatch : Str → Option Str
  | [] => none
  | c :: rest =>
    match legacyAt (c :: rest) with
    | some ds => some ds
    | none => legacyMatch rest

/-- JS `String.replace` with a string pattern: replaces the first occurrence
only. -/
def replaceFirst (pat rep : Str) : Str → Str
  | [] =>
    (match stripStr pat [] with
     | some rest => rep ++ rest
     | none => [])
  | c :: cs =>
    match stripStr pat (c :: cs) with
    | some rest => rep ++ rest
    | none => c :: replaceFirst pat rep cs

/-! ### Data model (§3 of the spec, constructor/fields of `TrainingApp`) -/

/-- A module descriptor from a program manifest. -/
structure Module where
  id : Str
  title : Str
  file : Str
  order : Int
deriving DecidableEq

/-- A program descriptor from the catalog (the fields the engine reads). -/
structure Program where
  id : Str
  title : Str
  manifest : Str
deriving DecidableEq

/-- A fetched page payload, opaque to the engine (cached verbatim). -/
structure PageContent where
  raw : Str
deriving DecidableEq

/-- A progress record: `{completed, lastVisited}`. -/
structure ProgressRecord where
  completed : Bool
  lastVisited : Int
deriving DecidableEq

/-- The progress store: programId → moduleId → record. -/
abbrev Progress := List (Str × List (Str × ProgressRecord))

/-- The content cache: `programId:moduleId` → payload. -/
abbrev Cache := List (Str × PageContent)

/-- Shape returned by `getStateFromHash` and `getStoredState`. -/
structure PartialState where
  programId : Option Str
  pageIndex : Option Int
deriving DecidableEq

/-- A JSON-ish field value, as relevant to the durable snapshot. -/
inductive JVal where
  | jstr : Str → JVal
  | jint : Int → JVal
  | jnum : JVal
  | jnull : JVal
  | jother : JVal
deriving DecidableEq

/-- A parsed snapshot object in durable storage. -/
structure RawSnapshot where
  programId : JVal
  pageIndex : JVal
deriving DecidableEq

/-- The durable `trainingAppState` storage cell. -/
inductive StoredCell where
  | absent : StoredCell
  | malformed : StoredCell
  | snap : RawSnapshot → StoredCell
deriving DecidableEq

/-- A history entry pushed by the engine. -/
inductive HistEntry where
  | dashboard : HistEntry
  | page : Option Str → Int → HistEntry
deriving DecidableEq

/-- Observable side effects of the engine. -/
inductive Eff where
  | fetchManifest : Str → Eff
  | fetchContent : Str → Eff
  | pushHistory : HistEntry → Str → Eff
  | storeSnapshot : Option Str → Option Int → Eff
  | saveProgress : Eff
  | showError : Eff
deriving DecidableEq

/-- The navigation state machine's mutable state (the `TrainingApp` fields the
engine reads and writes). -/
structure AppState where
  currentProgram : Option Program
  modules : List Module
  currentPageIndex : Int
  contentCache : Cache
  progress : Progress
deriving DecidableEq

/-! ### URL hash codec (`getStateFromHash`, lines 966-986; `buildHash`,
lines 988-997) -/

/-- `getStateFromHash()`: legacy `#page-N` first (no program id, 1-based to
0-based), else parse the hash fragment as query parameters; a page parameter
is kept only when truthy and `parseInt` yields an integer; an empty `program`
parameter is normalised to `null`. -/
def getStateFromHash (hash : Str) : PartialState :=
  match legacyMatch hash with
  | some ds => ⟨none, some ((digitsToNat ds : Int) - 1)⟩
  | none =>
    if !startsWithCh 35 hash then ⟨none, none⟩
    else
      let params := parseParams (hash.drop 1)
      let programId := getParam params (strLit "program")
      let pageParam := getParam params (strLit "page")
      let pageIndex : Option Int :=
        match pageParam with
        | some pp =>
          if pp.isEmpty then none
          else
            match parseIntJS pp with
            | some v => some (v - 1)
            | none => none
        | none => none
      ⟨(match programId with
        | some s => if s.isEmpty then none else some s
        | none => none), pageIndex⟩

/-- `buildHash(programId, pageIndex)`: set `program` when the id is truthy,
set `page` to `pageIndex + 1` when the index is an integer, serialise. -/
def buildHash (programId : Option Str) (pageIndex : Option Int) : Str :=
  let ps1 : List (Str × Str) :=
    match programId with
    | some s => if s.isEmpty then [] else [(strLit "program", s)]
    | none => []
  let ps2 : List (Str × Str) :=
    match pageIndex with
    | some n => [(strLit "page", intToStr (n + 1))]
    | none => []
  35 :: serializeParams (ps1 ++ ps2)

/-! ### Durable session snapshot (`getStoredState`, lines 999-1013;
`storeState`, lines 1015-1024) -/

/-- `getStoredState()`: absent or unparsable storage gives `{null, null}`;
otherwise `programId` is kept only when it is a string and `pageIndex` only
when it is an integer. -/
def getStoredState : StoredCell → PartialState
  | StoredCell.absent => ⟨none, none⟩
  | StoredCell.malformed => ⟨none, none⟩
  | StoredCell.snap r =>
    ⟨(match r.programId with
      | JVal.jstr s => some s
      | _ => none),
     (match r.pageIndex with
      | JVal.jint n => some n
      | _ => none)⟩

/-- `storeState(programId, pageIndex)`: writes `{programId: programId || null,
pageIndex: Number.isInteger(pageIndex) ? pageIndex : 0}`. -/
def storeState (programId : Option Str) (pageIndex : JVal) : StoredCell :=
  StoredCell.snap
    ⟨(match programId with
      | some s => if s.isEmpty then JVal.jnull else JVal.jstr s
      | none => JVal.jnull),
     JVal.jint (match pageIndex with
      | JVal.jint n => n
      | _ => 0)⟩

/-! ### Content cache and page loading (`loadPageContent`, lines 436-462;
`loadPage`, lines 615-654) -/

/-- Cache key `programId + ":" + module.id`. -/
def cacheKey (pid mid : Str) : Str := pid ++ 58 :: mid

/-- Content path: the program's manifest directory (manifest path with
`/manifest.json` removed) joined with the module's file. -/
def contentPath (prog : Program) (m : Module) : Str :=
  replaceFirst (strLit "/manifest.json") [] prog.manifest ++ 47 :: m.file

/-- JS array indexing (out-of-range or negative gives `undefined`). -/
def getAt? (l : List α) (i : Int) : Option α :=
  if i < 0 then none else l[i.toNat]?

/-- `loadPageContent(moduleIndex)`: cache hit returns the stored payload with
no fetch; a miss fetches, caches on success and leaves the cache unwritten on
failure.  `none` in the first component models a thrown error (including the
TypeError when the module or current program is missing). -/
def loadPageContent (cF : Str → Option PageContent) (currentProgram : Option Program)
    (modules : List Module) (cache : Cache) (moduleIndex : Int) :
    Option (PageContent × Cache) × List Eff :=
  match getAt? modules moduleIndex, currentProgram with
  | some m, some prog =>
    let key := cacheKey prog.id m.id
    match alookup key cache with
    | some content => (some (content, cache), [])
    | none =>
      let path := contentPath prog m
      match cF path with
      | some content => (some (content, assocSet key content cache), [Eff.fetchContent path])
      | none => (none, [Eff.fetchContent path])
  | _, _ => (none, [])

/-- `loadPage(index)`: out-of-range indices return immediately; otherwise
`currentPageIndex` is set *before* the content is awaited; on success the new
state is published to history and the durable snapshot, on failure the error
is caught and surfaced. -/
def loadPage (cF : Str → Option PageContent) (st : AppState) (index : Int) :
    AppState × List Eff :=
  if index < 0 ∨ (st.modules.length : Int) ≤ index then (st, [])
  else
    let st1 := { st with currentPageIndex := index }
    match loadPageContent cF st1.currentProgram st1.modules st1.contentCache index with
    | (some (_, cache2), effs) =>
      let st2 := { st1 with contentCache := cache2 }
      let pid? := st2.currentProgram.map (·.id)
      let hash := buildHash pid? (some index)
      (st2, effs ++ [Eff.pushHistory (HistEntry.page pid? index) hash,
                     Eff.storeSnapshot pid? (some index)])
    | (none, effs) => (st1, effs ++ [Eff.showError])

/-! ### Manifest loading and sorting (`loadManifest`, lines 414-434) -/

/-- Stable insertion of a module into an order-sorted list: an original-earlier
element goes before later elements of equal `order`. -/
def insertModule (x : Module) : List Module → List Module
  | [] => [x]
  | y :: ys => if x.order ≤ y.order then x :: y :: ys else y :: insertModule x ys

/-- `manifest.modules.sort((a, b) => a.order - b.order)` — a stable ascending
sort by `order` (Array.prototype.sort is stable per ECMA-262). -/
def sortModules : List Module → List Module
  | [] => []
  | x :: xs => insertModule x (sortModules xs)

/-- `loadManifest(path)`: fetch the manifest and sort its modules by `order`;
`none` models the thrown `ManifestUnavailable`. -/
def loadManifest (mF : Str → Option (List Module)) (path : Str) : Option (List Module) :=
  (mF path).map sortModules

/-! ### Progress store (`markModuleComplete`, lines 1047-1056;
`isModuleComplete`, lines 1058-1060; the un-complete branch of
`toggleModuleComplete`, lines 792-801) -/

/-- `markModuleComplete(programId, moduleId)`: create the program's map when
missing, then write `{completed: true, lastVisited: now}` under the module id. -/
def markModuleComplete (pr : Progress) (pid mid : Str) (now : Int) : Progress :=
  let inner := (alookup pid pr).getD []
  assocSet pid (assocSet mid ⟨true, now⟩ inner) pr

/-- `isModuleComplete(programId, moduleId)`:
`progress[pid]?.[mid]?.completed || false`. -/
def isModuleComplete (pr : Progress) (pid mid : Str) : Bool :=
  match alookup pid pr with
  | some inner =>
    match alookup mid inner with
    | some r => r.completed
    | none => false
  | none => false

/-- The mark-as-incomplete branch of `toggleModuleComplete`: when the program
has a record object, `delete progress[pid][mid]` (the empty object stays). -/
def markIncompleteOp (pr : Progress) (pid mid : Str) : Progress :=
  match alookup pid pr with
  | some inner => assocSet pid (assocRemove mid inner) pr
  | none => pr

/-- Total number of records stored under `(programId, moduleId)`. -/
def recordCount (pr : Progress) (pid mid : Str) : Nat :=
  (pr.map (fun e => if e.1 = pid then countKey mid e.2 else 0)).sum

/-! ### Navigation wrappers (`navigateNext`, lines 888-898) -/

/-- `navigateNext()`: when not on the last page, mark the current module
complete (when a program and module are present) and load the next page;
otherwise do nothing. -/
def navigateNext (cF : Str → Option PageContent) (now : Int) (st : AppState) :
    AppState × List Eff :=
  if st.currentPageIndex < (st.modules.length : Int) - 1 then
    let marked : AppState × List Eff :=
      match st.currentProgram, getAt? st.modules st.currentPageIndex with
      | some prog, some m =>
        ({ st with progress := markModuleComplete st.progress prog.id m.id now },
         [Eff.saveProgress])
      | _, _ => (st, [])
    let r := loadPage cF marked.1 (st.currentPageIndex + 1)
    (r.1, marked.2 ++ r.2)
  else (st, [])

/-! ### Dashboard, program switching and startup (`showDashboard`,
lines 70-109; `switchProgram`, lines 380-412; `init`, lines 30-54) -/

/-- `showDashboard()`: clear the program state, render the dashboard (which
fetches every program's manifest for progress display), push the dashboard
history entry and overwrite the durable snapshot with nulls. -/
def showDashboard (catalog : List Program) (st : AppState) : AppState × List Eff :=
  ({ st with currentProgram := none, modules := [] },
   (catalog.map (fun p => Eff.fetchManifest p.manifest)) ++
     [Eff.pushHistory HistEntry.dashboard (strLit "#"), Eff.storeSnapshot none none])

/-- JS truthiness of a string-or-null. -/
def jsTruthyStr : Option Str → Bool
  | some s => !s.isEmpty
  | none => false

/-- JS `a || b` on string-or-null values. -/
def jsOr (a b : Option Str) : Option Str := if jsTruthyStr a then a else b

/-- Line 39: `hashState.programId || storedState.programId || null`. -/
def initSelectProgram (hs ss : PartialState) : Option Str :=
  jsOr hs.programId (jsOr ss.programId none)

/-- Lines 40-42: the hash's page index when it is an integer, else the stored
one, else 0. -/
def initSelectPage (hs ss : PartialState) : Int :=
  match hs.pageIndex with
  | some n => n
  | none =>
    match ss.pageIndex with
    | some n => n
    | none => 0

/-- Result of an operation that may leave a thrown error for the caller. -/
structure Outcome where
  state : AppState
  effs : List Eff
  threw : Bool

/-- `switchProgram(programId, pageIndex)`: no-op on an unknown id; otherwise
set the current program, load and sort its manifest (a failure rethrows with
the program already switched), clamp the index into
`[0, max(moduleCount - 1, 0)]` and load that page. -/
def switchProgram (mF : Str → Option (List Module)) (cF : Str → Option PageContent)
    (catalog : List Program) (st : AppState) (programId : Str) (pageIndex : Int) : Outcome :=
  match catalog.find? (fun p => p.id = programId) with
  | none => ⟨st, [], false⟩
  | some prog =>
    let st1 := { st with currentProgram := some prog }
    match loadManifest mF prog.manifest with
    | none => ⟨st1, [Eff.fetchManifest prog.manifest], true⟩
    | some ms =>
      let st2 := { st1 with modules := ms }
      let safe : Int := min (max pageIndex 0) (max ((st2.modules.length : Int) - 1) 0)
      let r := loadPage cF st2 safe
      ⟨r.1, Eff.fetchManifest prog.manifest :: r.2, false⟩

/-- Fresh state built by the constructor (progress rehydrated from storage). -/
def initialState (prog0 : Progress) : AppState := ⟨none, [], 0, [], prog0⟩

/-- `init()`: load the catalog (failure is fatal), reconcile the startup
target from the URL hash and the durable snapshot, then either switch to the
selected program (catching any manifest failure) or show the dashboard. -/
def init (pF : Option (List Program)) (mF : Str → Option (List Module))
    (cF : Str → Option PageContent) (hash : Str) (cell : StoredCell) (prog0 : Progress) :
    Outcome :=
  match pF with
  | none => ⟨initialState prog0, [Eff.showError], false⟩
  | some catalog =>
    let st0 := initialState prog0
    let hs := getStateFromHash hash
    let ss := getStoredState cell
    match initSelectProgram hs ss with
    | some pid =>
      let r := switchProgram mF cF catalog st0 pid (initSelectPage hs ss)
      if r.threw then ⟨r.state, r.effs ++ [Eff.showError], false⟩ else r
    | none =>
      let d := showDashboard catalog st0
      ⟨d.1, d.2, false⟩

/-! ### Concrete fixtures used by witnesses and counterexamples -/

/-- A module with sort order 2, listed first in the example manifest. -/
def exModuleA : Module := ⟨strLit "m1", strLit "Module One", strLit "m1.json", 2⟩

/-- A module with sort order 1, listed second in the example manifest. -/
def exModuleB : Module := ⟨strLit "m2", strLit "Module Two", strLit "m2.json", 1⟩

/-- An example program. -/
def exProgram : Program := ⟨strLit "p1", strLit "Program One", strLit "p1/manifest.json"⟩

/-- An example in-session state: program `p1` active, two modules, page 0,
empty cache and progress. -/
def exState : AppState := ⟨some exProgram, [exModuleB, exModuleA], 0, [], []⟩

/-- A fetch oracle on which every request fails. -/
def failFetch : Str → Option PageContent := fun _ => none

/-- A fetch oracle on which every request succeeds with a fixed payload. -/
def okFetch : Str → Option PageContent := fun _ => some ⟨strLit "payload"⟩

/-! ## Association-list lemmas -/

theorem alookup_assocSet_self (k : Str) (v : α) (l : List (Str × α)) :
    alookup k (assocSet k v l) = some v := by
  induction l with
  | nil => simp [alookup, assocSet]
  | cons e rest ih =>
    by_cases h : e.1 = k
    · simp [alookup, assocSet, h]
    · simp [alookup, assocSet, h, ih]

theorem countKey_cons (k : Str) (e : Str × α) (l : List (Str × α)) :
    countKey k (e :: l) = countKey k l + (if e.1 = k then 1 else 0) := by
  simp only [countKey, List.countP_cons, decide_eq_true_eq]

theorem countKey_assocSet (k : Str) (v : α) (l : List (Str × α))
    (h : countKey k l ≤ 1) : countKey k (assocSet k v l) = 1 := by
  induction l with
  | nil => simp [countKey, assocSet]
  | cons e rest ih =>
    rw [countKey_cons] at h
    by_cases he : e.1 = k
    · have hz : countKey k rest = 0 := by
        rw [if_pos he] at h
        omega
      simp only [assocSet, he, if_pos]
      rw [countKey_cons, hz]
      simp
    · have h' : countKey k rest ≤ 1 := by
        rw [if_neg he] at h
        omega
      simp only [assocSet, he, if_neg, not_false_iff, ite_false]
      rw [countKey_cons, ih h', if_neg he]

theorem countKey_assocRemove (k : Str) (l : List (Str × α)) :
    countKey k (assocRemove k l) = 0 := by
  induction l with
  | nil => simp [countKey, assocRemove]
  | cons e rest ih =>
    by_cases he : e.1 = k
    · simp [countKey, assocRemove, he] at ih ⊢
    · simp [countKey, assocRemove, he] at ih ⊢

theorem alookup_assocRemove (k : Str) (l : List (Str × α)) :
    alookup k (assocRemove k l) = none := by
  induction l with
  | nil => simp [alookup, assocRemove]
  | cons e rest ih =>
    simp only [assocRemove, ne_eq, decide_not] at ih ⊢
    by_cases he : e.1 = k
    · simp [List.filter_cons, he, ih]
    · simp [List.filter_cons, he, alookup, ih]

theorem recordCount_cons (pid mid : Str) (e : Str × List (Str × ProgressRecord))
    (rest : Progress) :
    recordCount (e :: rest) pid mid =
      (if e.1 = pid then countKey mid e.2 else 0) + recordCount rest pid mid := by
  simp [recordCount]

theorem recordCount_zero_of_countKey_zero (pr : Progress) (pid mid : Str)
    (h : countKey pid pr = 0) : recordCount pr pid mid = 0 := by
  induction pr with
  | nil => simp [recordCount]
  | cons e rest ih =>
    rw [countKey_cons] at h
    by_cases he : e.1 = pid
    · rw [if_pos he] at h
      omega
    · rw [if_neg he] at h
      rw [recordCount_cons, if_neg he, ih (by omega)]

theorem recordCount_eq_inner (pr : Progress) (pid mid : Str)
    (h : countKey pid pr ≤ 1) :
    recordCount pr pid mid = countKey mid ((alookup pid pr).getD []) := by
  induction pr with
  | nil => simp [recordCount, alookup, countKey]
  | cons e rest ih =>
    rw [countKey_cons] at h
    by_cases he : e.1 = pid
    · have hz : countKey pid rest = 0 := by
        rw [if_pos he] at h
        omega
      rw [recordCount_cons, if_pos he, recordCount_zero_of_countKey_zero rest pid mid hz]
      simp [alookup, he]
    · rw [if_neg he] at h
      rw [recordCount_cons, if_neg he, ih (by omega)]
      simp [alookup, he]

/-! ## Bounds helpers for JS array indexing -/

theorem getAt?_isSome_bounds {l : List α} {i : Int} {x : α}
    (h : getAt? l i = some x) : 0 ≤ i ∧ i < (l.length : Int) := by
  unfold getAt? at h
  split at h
  · exact absurd h (by simp)
  · rename_i hneg
    have hlt : i.toNat < l.length := by
      by_contra hge
      rw [List.getElem?_eq_none (by omega)] at h
      exact absurd h (by simp)
    omega

theorem getAt?_eq_some_of_bounds (l : List α) (i : Int)
    (h0 : 0 ≤ i) (h1 : i < (l.length : Int)) : ∃ x, getAt? l i = some x := by
  have hlt : i.toNat < l.length := by omega
  refine ⟨l.get ⟨i.toNat, hlt⟩, ?_⟩
  unfold getAt?
  rw [if_neg (by omega)]
  simp [List.getElem?_eq_getElem hlt]

/-- In-range `loadPage` always sets `currentPageIndex` to the requested index
(it is assigned before the fetch is awaited) and never touches the program,
module list, or progress. -/
theorem loadPage_inRange_state (cF : Str → Option PageContent) (st : AppState) (idx : Int)
    (h : ¬(idx < 0 ∨ (st.modules.length : Int) ≤ idx)) :
    (loadPage cF st idx).1.currentPageIndex = idx ∧
    (loadPage cF st idx).1.currentProgram = st.currentProgram ∧
    (loadPage cF st idx).1.modules = st.modules ∧
    (loadPage cF st idx).1.progress = st.progress := by
  unfold loadPage
  rw [if_neg h]
  rcases hres : loadPageContent cF st.currentProgram st.modules st.contentCache idx with
    ⟨r, effs⟩
  cases r with
  | none => simp [hres]
  | some pc => simp [hres]

/-! ## C10 — durable snapshots written by `storeState` are well-formed -/

/-- C10: every snapshot written by `storeState` stores an integer `pageIndex`
(the supplied integer, or 0 for any non-integer input such as the dashboard's
`null`) and a `programId` that is either the supplied non-empty string or
`null`; reading it back with `getStoredState` therefore never takes the
corruption fallback and always yields an integer `pageIndex`. -/
theorem c10_storeState_wellformed (pid : Option Str) (pidx : JVal) :
    ∃ n : Int, ∃ pj : JVal,
      storeState pid pidx = StoredCell.snap ⟨pj, JVal.jint n⟩ ∧
      (pidx = JVal.jint n ∨ n = 0) ∧
      (pj = JVal.jnull ∨ ∃ s, pid = some s ∧ ¬s.isEmpty ∧ pj = JVal.jstr s) ∧
      (getStoredState (storeState pid pidx)).pageIndex = some n := by
  refine ⟨(match pidx with | JVal.jint n => n | _ => 0),
          (match pid with
           | some s => if s.isEmpty then JVal.jnull else JVal.jstr s
           | none => JVal.jnull), ?_, ?_, ?_, ?_⟩
  · cases pidx <;> cases pid <;> simp [storeState]
  · cases pidx <;> simp
  · cases pid with
    | none => simp
    | some s =>
      by_cases hs : s.isEmpty
      · simp [hs]
      · exact Or.inr ⟨s, rfl, hs, by simp [hs]⟩
  · cases pidx <;> cases pid <;> simp [storeState, getStoredState]

/-! ## C6 — out-of-range `goToPage` is a complete no-op -/

/-- C6: calling `loadPage` with an index outside `[0, moduleCount - 1]`
returns the state unchanged and produces no effect at all: no fetch, no
history push, no snapshot write. -/
theorem c6_outOfRange_noop (cF : Str → Option PageContent) (st : AppState) (idx : Int)
    (h : idx < 0 ∨ (st.modules.length : Int) ≤ idx) :
    loadPage cF st idx = (st, []) := by
  unfold loadPage
  rw [if_pos h]

/-- Witness for C6 at a concrete out-of-range index. -/
theorem c6_outOfRange_noop_witness :
    loadPage failFetch exState 5 = (exState, []) :=
  c6_outOfRange_noop failFetch exState 5 (by decide)

/-! ## C1 — failed fetch: no publication, but the index IS mutated -/

/-- C1 counterexample: on `exState` (current page index 0), `loadPage 1` with
a failing fetch leaves `currentPageIndex = 1`, not the index held before the
call — the assignment happens before the fetch is awaited. -/
theorem c1_counterexample :
    (loadPage failFetch exState 1).1.currentPageIndex ≠ exState.currentPageIndex := by
  decide

/-- C1 (amended): when the content fetch of an in-range `loadPage` fails, the
resulting state is exactly the prior state with `currentPageIndex` set to the
requested index (cache and progress untouched), and the only effects are the
failed fetch and the surfaced error — in particular nothing is published to
the URL, history, or durable snapshot. -/
theorem c1_amended_fetch_fail (cF : Str → Option PageContent) (st : AppState)
    (idx : Int) (prog : Program) (m : Module)
    (hprog : st.currentProgram = some prog)
    (hm : getAt? st.modules idx = some m)
    (hcache : alookup (cacheKey prog.id m.id) st.contentCache = none)
    (hfail : cF (contentPath prog m) = none) :
    loadPage cF st idx =
      ({ st with currentPageIndex := idx },
       [Eff.fetchContent (contentPath prog m), Eff.showError]) := by
  obtain ⟨h0, h1⟩ := getAt?_isSome_bounds hm
  unfold loadPage
  rw [if_neg (by omega)]
  simp only [loadPageContent, hm, hprog, hcache, hfail]
  rfl

/-- Witness for the amended C1 at a concrete failing input. -/
theorem c1_amended_fetch_fail_witness :
    loadPage failFetch exState 1 =
      ({ exState with currentPageIndex := 1 },
       [Eff.fetchContent (contentPath exProgram exModuleA), Eff.showError]) :=
  c1_amended_fetch_fail failFetch exState 1 exProgram exModuleA (by decide) (by decide)
    (by decide) (by decide)

/-! ## C4 — the content cache issues exactly one fetch per key -/

/-- C4: starting from a cache without the key, a successful request stores the
fetched payload under `programId + ":" + moduleId` and issues exactly one
fetch; a second request for the same key (any module with the same id) returns
the stored payload with no fetch effect. -/
theorem c4_cache_single_fetch (cF : Str → Option PageContent) (prog : Program)
    (modules : List Module) (cache : Cache) (i j : Int) (m m' : Module)
    (content : PageContent)
    (hm : getAt? modules i = some m) (hm' : getAt? modules j = some m')
    (hid : m'.id = m.id)
    (hmiss : alookup (cacheKey prog.id m.id) cache = none)
    (hfetch : cF (contentPath prog m) = some content) :
    loadPageContent cF (some prog) modules cache i =
      (some (content, assocSet (cacheKey prog.id m.id) content cache),
       [Eff.fetchContent (contentPath prog m)]) ∧
    loadPageContent cF (some prog) modules
        (assocSet (cacheKey prog.id m.id) content cache) j =
      (some (content, assocSet (cacheKey prog.id m.id) content cache), []) := by
  constructor
  · simp only [loadPageContent, hm, hmiss, hfetch]
  · have hhit : alookup (cacheKey prog.id m'.id)
        (assocSet (cacheKey prog.id m.id) content cache) = some content := by
      rw [hid]
      exact alookup_assocSet_self _ _ _
    simp only [loadPageContent, hm', hhit]

/-- Witness for C4 at a concrete state. -/
theorem c4_cache_single_fetch_witness :
    loadPageContent okFetch (some exProgram) [exModuleB, exModuleA] [] 0 =
      (some (⟨strLit "payload"⟩,
             assocSet (cacheKey exProgram.id exModuleB.id) ⟨strLit "payload"⟩ []),
       [Eff.fetchContent (contentPath exProgram exModuleB)]) ∧
    loadPageContent okFetch (some exProgram) [exModuleB, exModuleA]
        (assocSet (cacheKey exProgram.id exModuleB.id) ⟨strLit "payload"⟩ []) 0 =
      (some (⟨strLit "payload"⟩,
             assocSet (cacheKey exProgram.id exModuleB.id) ⟨strLit "payload"⟩ []), []) :=
  c4_cache_single_fetch okFetch exProgram [exModuleB, exModuleA] [] 0 0 exModuleB exModuleB
    ⟨strLit "payload"⟩ (by decide) (by decide) rfl (by decide) (by decide)

/-! ## C8 — `navigateNext` marks the left module complete before moving -/

/-- Marking a module complete makes `isModuleComplete` true for that key. -/
theorem isModuleComplete_markModuleComplete (pr : Progress) (pid mid : Str) (now : Int) :
    isModuleComplete (markModuleComplete pr pid mid now) pid mid = true := by
  unfold isModuleComplete markModuleComplete
  rw [alookup_assocSet_self]
  simp [alookup_assocSet_self]

/-- C8: with a current program and a current page index `i` with
`0 ≤ i < moduleCount - 1`, `navigateNext` writes a completion record for the
module at index `i` (the page being left) and moves to page `i + 1`; when
`i = moduleCount - 1` (the last page) it neither moves nor marks anything. -/
theorem c8_navigateNext (cF : Str → Option PageContent) (now : Int) (st : AppState)
    (prog : Program) (hprog : st.currentProgram = some prog)
    (h0 : 0 ≤ st.currentPageIndex) :
    (st.currentPageIndex < (st.modules.length : Int) - 1 →
      ∃ m, getAt? st.modules st.currentPageIndex = some m ∧
        (navigateNext cF now st).1.currentPageIndex = st.currentPageIndex + 1 ∧
        (navigateNext cF now st).1.progress =
          markModuleComplete st.progress prog.id m.id now ∧
        isModuleComplete (navigateNext cF now st).1.progress prog.id m.id = true ∧
        Eff.saveProgress ∈ (navigateNext cF now st).2) ∧
    (st.currentPageIndex = (st.modules.length : Int) - 1 →
      navigateNext cF now st = (st, [])) := by
  constructor
  · intro hlt
    obtain ⟨m, hm⟩ := getAt?_eq_some_of_bounds st.modules st.currentPageIndex h0 (by omega)
    refine ⟨m, hm, ?_⟩
    have hmarked :
        navigateNext cF now st =
          (let st1 : AppState :=
            { st with progress := markModuleComplete st.progress prog.id m.id now }
           let r := loadPage cF st1 (st.currentPageIndex + 1)
           (r.1, Eff.saveProgress :: r.2)) := by
      unfold navigateNext
      rw [if_pos hlt]
      simp only [hprog, hm, List.singleton_append]
    set st1 : AppState :=
      { st with progress := markModuleComplete st.progress prog.id m.id now } with hst1
    have hrange : ¬(st.currentPageIndex + 1 < 0 ∨
        (st1.modules.length : Int) ≤ st.currentPageIndex + 1) := by
      simp only [hst1]
      omega
    obtain ⟨hidx, _, _, hprogress⟩ := loadPage_inRange_state cF st1 (st.currentPageIndex + 1) hrange
    rw [hmarked]
    simp only [hst1] at hidx hprogress ⊢
    refine ⟨hidx, ?_, ?_, ?_⟩
    · rw [hprogress]
    · rw [hprogress]
      exact isModuleComplete_markModuleComplete _ _ _ _
    · simp
  · intro heq
    unfold navigateNext
    rw [if_neg (by omega)]

/-- Witness for C8 at a concrete state (two modules, page 0). -/
theorem c8_navigateNext_witness :
    (∃ m, getAt? exState.modules exState.currentPageIndex = some m ∧
      (navigateNext okFetch 7 exState).1.currentPageIndex = exState.currentPageIndex + 1 ∧
      (navigateNext okFetch 7 exState).1.progress =
        markModuleComplete exState.progress exProgram.id m.id 7 ∧
      isModuleComplete (navigateNext okFetch 7 exState).1.progress exProgram.id m.id = true ∧
      Eff.saveProgress ∈ (navigateNext okFetch 7 exState).2) :=
  (c8_navigateNext okFetch 7 exState exProgram (by decide) (by decide)).1 (by decide)

/-! ## C9 — progress idempotence and removal -/

/-- C9: from any store whose entries for the key are object-unique (as JS
objects are), marking `(programId, moduleId)` complete twice leaves exactly
one record for the key, with `completed = true`; marking incomplete afterwards
removes the record entirely, so `isModuleComplete` is false. -/
theorem c9_progress_idempotent (pr : Progress) (pid mid : Str) (t1 t2 : Int)
    (houter : countKey pid pr ≤ 1)
    (hinner : countKey mid ((alookup pid pr).getD []) ≤ 1) :
    recordCount (markModuleComplete (markModuleComplete pr pid mid t1) pid mid t2) pid mid
        = 1 ∧
    (∃ r, alookup mid
        ((alookup pid (markModuleComplete (markModuleComplete pr pid mid t1) pid mid t2)).getD
          []) = some r ∧ r.completed = true) ∧
    isModuleComplete (markModuleComplete (markModuleComplete pr pid mid t1) pid mid t2)
        pid mid = true ∧
    recordCount
        (markIncompleteOp (markModuleComplete (markModuleComplete pr pid mid t1) pid mid t2)
          pid mid) pid mid = 0 ∧
    isModuleComplete
        (markIncompleteOp (markModuleComplete (markModuleComplete pr pid mid t1) pid mid t2)
          pid mid) pid mid = false := by
  set inner0 := (alookup pid pr).getD [] with hinner0
  set p1 := markModuleComplete pr pid mid t1 with hp1
  have hl1 : alookup pid p1 = some (assocSet mid ⟨true, t1⟩ inner0) := by
    rw [hp1]
    unfold markModuleComplete
    rw [alookup_assocSet_self]
  have hc1 : countKey pid p1 = 1 := by
    rw [hp1]
    unfold markModuleComplete
    exact countKey_assocSet _ _ _ houter
  set p2 := markModuleComplete p1 pid mid t2 with hp2
  have hl2 : alookup pid p2 =
      some (assocSet mid ⟨true, t2⟩ (assocSet mid ⟨true, t1⟩ inner0)) := by
    rw [hp2]
    unfold markModuleComplete
    rw [hl1, alookup_assocSet_self]
    simp
  have hc2 : countKey pid p2 = 1 := by
    rw [hp2]
    unfold markModuleComplete
    exact countKey_assocSet _ _ _ (by omega)
  have hinner1 : countKey mid (assocSet mid ⟨true, t1⟩ inner0) = 1 :=
    countKey_assocSet _ _ _ hinner
  have hinner2 : countKey mid (assocSet mid ⟨true, t2⟩ (assocSet mid ⟨true, t1⟩ inner0)) = 1 :=
    countKey_assocSet _ _ _ (by omega)
  have hrm : markIncompleteOp p2 pid mid =
      assocSet pid
        (assocRemove mid (assocSet mid ⟨true, t2⟩ (assocSet mid ⟨true, t1⟩ inner0))) p2 := by
    unfold markIncompleteOp
    rw [hl2]
  refine ⟨?_, ?_, ?_, ?_, ?_⟩
  · rw [recordCount_eq_inner p2 pid mid (by omega), hl2]
    simpa using hinner2
  · exact ⟨⟨true, t2⟩, by rw [hl2]; simp [alookup_assocSet_self], rfl⟩
  · unfold isModuleComplete
    rw [hl2]
    simp [alookup_assocSet_self]
  · have houter2 : countKey pid (markIncompleteOp p2 pid mid) = 1 := by
      rw [hrm]
      exact countKey_assocSet _ _ _ (by omega)
    rw [recordCount_eq_inner _ pid mid (by omega), hrm, alookup_assocSet_self]
    simpa using countKey_assocRemove mid _
  · rw [hrm]
    unfold isModuleComplete
    rw [alookup_assocSet_self]
    simp [alookup_assocRemove]

/-- Witness for C9 from the empty store. -/
theorem c9_progress_idempotent_witness :
    recordCount (markModuleComplete (markModuleComplete [] (strLit "p") (strLit "m") 1)
        (strLit "p") (strLit "m") 2) (strLit "p") (strLit "m") = 1 ∧
    isModuleComplete
        (markIncompleteOp (markModuleComplete (markModuleComplete [] (strLit "p") (strLit "m") 1)
          (strLit "p") (strLit "m") 2) (strLit "p") (strLit "m")) (strLit "p") (strLit "m")
        = false := by
  obtain ⟨h1, _, _, _, h5⟩ :=
    c9_progress_idempotent [] (strLit "p") (strLit "m") 1 2 (by decide) (by decide)
  exact ⟨h1, h5⟩

/-! ## The urlencoded codec round-trips -/

theorem pdb_plus (rest : Str) : percentDecodeBytes (43 :: rest) = 32 :: percentDecodeBytes rest :=
  rfl

theorem pdb_cons_other (c : Nat) (rest : Str) (h43 : c ≠ 43) (h37 : c ≠ 37) :
    percentDecodeBytes (c :: rest) = utf8Bytes c ++ percentDecodeBytes rest := by
  rw [percentDecodeBytes.eq_def]
  split
  · simp_all
  · rename_i heq
    injection heq with h1 h2
    omega
  · rename_i heq
    injection heq with h1 h2
    omega
  · rename_i heq
    simp only [List.cons.injEq] at heq
    obtain ⟨h1, h2⟩ := heq
    subst h1
    subst h2
    rfl

theorem pdb_percent_hex (h1 h2 : Nat) (rest2 : Str) (v1 v2 : Nat)
    (hv1 : hexVal h1 = some v1) (hv2 : hexVal h2 = some v2) :
    percentDecodeBytes (37 :: h1 :: h2 :: rest2) =
      (v1 * 16 + v2) :: percentDecodeBytes rest2 := by
  rw [percentDecodeBytes.eq_def]
  simp [hv1, hv2]

theorem hexVal_hexDigitCh (k : Nat) (h : k < 16) : hexVal (hexDigitCh k) = some k := by
  interval_cases k <;> decide

theorem pdb_percentByte (b : Nat) (hb : b < 256) (rest : Str) :
    percentDecodeBytes (percentByte b ++ rest) = b :: percentDecodeBytes rest := by
  have e1 := hexVal_hexDigitCh (b / 16) (by omega)
  have e2 := hexVal_hexDigitCh (b % 16) (by omega)
  simp only [percentByte, List.cons_append, List.nil_append]
  rw [pdb_percent_hex _ _ _ _ _ e1 e2]
  congr 1
  omega

theorem utf8Bytes_lt_256 (c : Nat) (hc : c < 0x110000) : ∀ b ∈ utf8Bytes c, b < 256 := by
  intro b hb
  unfold utf8Bytes at hb
  by_cases h1 : c < 0x80
  · simp [h1] at hb
    omega
  · by_cases h2 : c < 0x800
    · simp [h1, h2] at hb
      omega
    · by_cases h3 : c < 0x10000
      · simp [h1, h2, h3] at hb
        omega
      · simp [h1, h2, h3] at hb
        omega

theorem pdb_concatMap_percentByte (bs : List Nat) (hb : ∀ b ∈ bs, b < 256) (rest : Str) :
    percentDecodeBytes (concatMap percentByte bs ++ rest) = bs ++ percentDecodeBytes rest := by
  induction bs with
  | nil => simp [concatMap]
  | cons b bt ih =>
    simp only [concatMap, List.append_assoc, List.cons_append]
    rw [pdb_percentByte b (hb b (by simp)) _]
    rw [ih (fun x hx => hb x (by simp [hx]))]

theorem isSafeCp_facts (c : Nat) (h : isSafeCp c = true) :
    c < 0x80 ∧ c ≠ 43 ∧ c ≠ 37 ∧ c ≠ 35 ∧ c ≠ 38 ∧ c ≠ 61 := by
  simp [isSafeCp] at h
  omega

theorem pdb_encodeCp (c : Nat) (hc : c < 0x110000) (rest : Str) :
    percentDecodeBytes (encodeCp c ++ rest) = utf8Bytes c ++ percentDecodeBytes rest := by
  unfold encodeCp
  by_cases hs : isSafeCp c
  · obtain ⟨_, h43, h37, _⟩ := isSafeCp_facts c hs
    rw [if_pos hs]
    simp only [List.cons_append, List.nil_append]
    exact pdb_cons_other c rest h43 h37
  · rw [if_neg hs]
    by_cases h32 : c = 32
    · subst h32
      rw [if_pos (show ((32 : Nat) == 32) = true from rfl)]
      rw [List.cons_append, List.nil_append, pdb_plus]
      rfl
    · rw [if_neg (by simpa using h32)]
      exact pdb_concatMap_percentByte _ (utf8Bytes_lt_256 c hc) rest

theorem pdb_formEncode_append (s : Str) (hv : ∀ d ∈ s, d < 0x110000) (rest : Str) :
    percentDecodeBytes (formEncode s ++ rest) =
      concatMap utf8Bytes s ++ percentDecodeBytes rest := by
  induction s with
  | nil => simp [formEncode, concatMap]
  | cons c ct ih =>
    simp only [formEncode, concatMap, List.append_assoc]
    rw [pdb_encodeCp c (hv c (by simp)) _]
    rw [show formEncode ct = concatMap encodeCp ct from rfl] at ih
    rw [ih (fun x hx => hv x (by simp [hx]))]

theorem utf8Decode_one_byte (b : Nat) (bs : List Nat) (h : b < 0x80) :
    utf8Decode (b :: bs) = b :: utf8Decode bs := by
  rw [utf8Decode.eq_def]
  simp only [if_pos h]

theorem utf8Decode_two_byte (b b2 : Nat) (bs : List Nat) (h1 : 0xC0 ≤ b) (h2 : b < 0xE0) :
    utf8Decode (b :: b2 :: bs) = ((b - 0xC0) * 0x40 + b2 % 0x40) :: utf8Decode bs := by
  rw [utf8Decode.eq_def]
  simp only [if_neg (show ¬b < 0x80 by omega), if_neg (show ¬b < 0xC0 by omega), if_pos h2]

theorem utf8Decode_three_byte (b b2 b3 : Nat) (bs : List Nat) (h1 : 0xE0 ≤ b) (h2 : b < 0xF0) :
    utf8Decode (b :: b2 :: b3 :: bs) =
      ((b - 0xE0) * 0x1000 + b2 % 0x40 * 0x40 + b3 % 0x40) :: utf8Decode bs := by
  rw [utf8Decode.eq_def]
  simp only [if_neg (show ¬b < 0x80 by omega), if_neg (show ¬b < 0xC0 by omega),
    if_neg (show ¬b < 0xE0 by omega), if_pos h2]

theorem utf8Decode_four_byte (b b2 b3 b4 : Nat) (bs : List Nat) (h1 : 0xF0 ≤ b) :
    utf8Decode (b :: b2 :: b3 :: b4 :: bs) =
      ((b - 0xF0) * 0x40000 + b2 % 0x40 * 0x1000 + b3 % 0x40 * 0x40 + b4 % 0x40) ::
        utf8Decode bs := by
  rw [utf8Decode.eq_def]
  simp only [if_neg (show ¬b < 0x80 by omega), if_neg (show ¬b < 0xC0 by omega),
    if_neg (show ¬b < 0xE0 by omega), if_neg (show ¬b < 0xF0 by omega)]

theorem utf8Decode_utf8Bytes (c : Nat) (rest : List Nat) :
    utf8Decode (utf8Bytes c ++ rest) = c :: utf8Decode rest := by
  unfold utf8Bytes
  by_cases hc1 : c < 0x80
  · rw [if_pos hc1]
    simp only [List.cons_append, List.nil_append]
    rw [utf8Decode_one_byte _ _ hc1]
  · by_cases hc2 : c < 0x800
    · rw [if_neg hc1, if_pos hc2]
      simp only [List.cons_append, List.nil_append]
      rw [utf8Decode_two_byte _ _ _ (by omega) (by omega)]
      congr 1
      omega
    · by_cases hc3 : c < 0x10000
      · rw [if_neg hc1, if_neg hc2, if_pos hc3]
        simp only [List.cons_append, List.nil_append]
        rw [utf8Decode_three_byte _ _ _ _ (by omega) (by omega)]
        congr 1
        omega
      · rw [if_neg hc1, if_neg hc2, if_neg hc3]
        simp only [List.cons_append, List.nil_append]
        rw [utf8Decode_four_byte _ _ _ _ _ (by omega)]
        congr 1
        omega

theorem utf8Decode_concatMap (s : Str) : utf8Decode (concatMap utf8Bytes s) = s := by
  induction s with
  | nil => simp [concatMap, utf8Decode]
  | cons c ct ih =>
    simp only [concatMap]
    rw [utf8Decode_utf8Bytes, ih]

/-- Decoding inverts encoding on any actual JS string. -/
theorem formDecode_formEncode (s : Str) (hv : ∀ d ∈ s, d < 0x110000) :
    formDecode (formEncode s) = s := by
  unfold formDecode
  have h1 := pdb_formEncode_append s hv []
  rw [List.append_nil] at h1
  rw [show percentDecodeBytes ([] : Str) = [] from rfl, List.append_nil] at h1
  rw [h1]
  exact utf8Decode_concatMap s

/-- Encoding leaves an all-safe string unchanged. -/
theorem formEncode_safe (s : Str) (hs : ∀ d ∈ s, isSafeCp d = true) : formEncode s = s := by
  induction s with
  | nil => rfl
  | cons c ct ih =>
    simp only [formEncode, concatMap] at ih ⊢
    rw [encodeCp, if_pos (hs c (by simp))]
    rw [ih (fun x hx => hs x (by simp [hx]))]
    rfl

/-- Decoding leaves an all-safe string unchanged. -/
theorem formDecode_safe (s : Str) (hs : ∀ d ∈ s, isSafeCp d = true) : formDecode s = s := by
  have hv : ∀ d ∈ s, d < 0x110000 := by
    intro d hd
    have := (isSafeCp_facts d (hs d hd)).1
    omega
  calc formDecode s = formDecode (formEncode s) := by rw [formEncode_safe s hs]
    _ = s := formDecode_formEncode s hv

theorem hexDigitCh_avoids (k : Nat) :
    hexDigitCh k ≠ 35 ∧ hexDigitCh k ≠ 38 ∧ hexDigitCh k ≠ 61 := by
  unfold hexDigitCh
  split <;> omega

theorem mem_percentByte_avoids (b d : Nat) (hd : d ∈ percentByte b) :
    d ≠ 35 ∧ d ≠ 38 ∧ d ≠ 61 := by
  simp [percentByte] at hd
  rcases hd with h | h | h
  · omega
  · rw [h]
    exact hexDigitCh_avoids _
  · rw [h]
    exact hexDigitCh_avoids _

theorem mem_concatMap (f : α → List β) (l : List α) (b : β) :
    b ∈ concatMap f l → ∃ a ∈ l, b ∈ f a := by
  induction l with
  | nil => simp [concatMap]
  | cons x xt ih =>
    simp only [concatMap, List.mem_append]
    rintro (h | h)
    · exact ⟨x, by simp, h⟩
    · obtain ⟨a, ha, hb⟩ := ih h
      exact ⟨a, by simp [ha], hb⟩

/-- The serialiser never emits `#`, `&`, or `=` inside an encoded component. -/
theorem mem_formEncode_avoids (s : Str) (d : Nat) (hd : d ∈ formEncode s) :
    d ≠ 35 ∧ d ≠ 38 ∧ d ≠ 61 := by
  obtain ⟨c, _, hdc⟩ := mem_concatMap encodeCp s d hd
  unfold encodeCp at hdc
  by_cases hs : isSafeCp c
  · rw [if_pos hs] at hdc
    simp at hdc
    have hf := isSafeCp_facts c hs
    omega
  · rw [if_neg hs] at hdc
    by_cases h32 : c = 32
    · subst h32
      simp at hdc
      omega
    · rw [if_neg (by simpa using h32)] at hdc
      obtain ⟨b, _, hdb⟩ := mem_concatMap percentByte (utf8Bytes c) d hdc
      exact mem_percentByte_avoids b d hdb

/-! ## Decimal digit strings -/

theorem digitsToNat_append_digit (xs : Str) (d : Nat) :
    digitsToNat (xs ++ [d]) = 10 * digitsToNat xs + (d - 48) := by
  unfold digitsToNat
  rw [List.foldl_append]
  simp [Nat.mul_comm]

theorem natToDigitsF_digits (fuel : Nat) :
    ∀ n, n < fuel → ∀ d ∈ natToDigitsF fuel n, 48 ≤ d ∧ d ≤ 57 := by
  induction fuel with
  | zero => omega
  | succ f ih =>
    intro n hn d hd
    unfold natToDigitsF at hd
    by_cases h10 : n < 10
    · simp [h10] at hd
      omega
    · rw [if_neg h10] at hd
      rcases List.mem_append.1 hd with h | h
      · exact ih (n / 10) (by omega) d h
      · simp at h
        omega

theorem natToDigitsF_ne_nil (fuel n : Nat) (hn : n < fuel) : natToDigitsF fuel n ≠ [] := by
  cases fuel with
  | zero => omega
  | succ f =>
    unfold natToDigitsF
    by_cases h10 : n < 10
    · simp [h10]
    · simp [h10]

theorem natToDigitsF_val (fuel : Nat) :
    ∀ n, n < fuel → digitsToNat (natToDigitsF fuel n) = n := by
  induction fuel with
  | zero => omega
  | succ f ih =>
    intro n hn
    unfold natToDigitsF
    by_cases h10 : n < 10
    · rw [if_pos h10]
      simp [digitsToNat]
    · rw [if_neg h10]
      rw [digitsToNat_append_digit, ih (n / 10) (by omega)]
      omega

theorem natToDigits_digits (n : Nat) : ∀ d ∈ natToDigits n, 48 ≤ d ∧ d ≤ 57 :=
  natToDigitsF_digits (n + 1) n (by omega)

theorem natToDigits_ne_nil (n : Nat) : natToDigits n ≠ [] :=
  natToDigitsF_ne_nil (n + 1) n (by omega)

theorem digitsToNat_natToDigits (n : Nat) : digitsToNat (natToDigits n) = n :=
  natToDigitsF_val (n + 1) n (by omega)

theorem takeWhile_all {p : α → Bool} (l : List α) (h : ∀ x ∈ l, p x = true) :
    l.takeWhile p = l := by
  induction l with
  | nil => rfl
  | cons x xt ih =>
    rw [List.takeWhile_cons, h x (by simp), ih (fun y hy => h y (by simp [hy]))]
    rfl

/-- `parseInt` on a non-empty all-digit string returns its value. -/
theorem parseIntJS_digits (s : Str) (hs : ∀ d ∈ s, 48 ≤ d ∧ d ≤ 57) (hne : s ≠ []) :
    parseIntJS s = some ((digitsToNat s : Nat) : Int) := by
  obtain ⟨d, ds, rfl⟩ := List.exists_cons_of_ne_nil hne
  have hd := hs d (by simp)
  have hws : isWsCp d = false := by
    simp [isWsCp]
    omega
  have hpd : parseDigits (d :: ds) = some (digitsToNat (d :: ds)) := by
    unfold parseDigits
    rw [takeWhile_all _ (fun x hx => by simp [isDigitCp]; exact (by have := hs x hx; omega))]
    simp
  unfold parseIntJS
  rw [List.dropWhile_cons, hws]
  simp only [Bool.false_eq_true, if_false]
  split
  · rename_i heq
    injection heq with h1 h2
    omega
  · rename_i heq
    injection heq with h1 h2
    omega
  · rw [hpd]
    rfl

theorem parseIntJS_natToDigits (n : Nat) : parseIntJS (natToDigits n) = some ((n : Nat) : Int) := by
  rw [parseIntJS_digits (natToDigits n) (natToDigits_digits n) (natToDigits_ne_nil n)]
  rw [digitsToNat_natToDigits]

/-! ## Splitting lemmas -/

theorem splitOnCh_ne_nil (sep : Nat) (s : Str) : splitOnCh sep s ≠ [] := by
  cases s with
  | nil => simp [splitOnCh]
  | cons c cs =>
    unfold splitOnCh
    split
    · simp
    · split <;> simp

theorem splitOnCh_no_sep (sep : Nat) (s : Str) (h : ∀ c ∈ s, c ≠ sep) :
    splitOnCh sep s = [s] := by
  induction s with
  | nil => rfl
  | cons c cs ih =>
    have hcs : splitOnCh sep cs = [cs] := ih (fun x hx => h x (by simp [hx]))
    unfold splitOnCh
    rw [hcs]
    have : (c == sep) = false := by
      have := h c (by simp)
      simp [this]
    simp [this]

theorem splitOnCh_append (sep : Nat) (a b : Str) (ha : ∀ c ∈ a, c ≠ sep) :
    splitOnCh sep (a ++ sep :: b) = a :: splitOnCh sep b := by
  induction a with
  | nil =>
    simp only [List.nil_append]
    rcases hsb : splitOnCh sep b with _ | ⟨h1, t1⟩
    · exact absurd hsb (splitOnCh_ne_nil sep b)
    · rw [splitOnCh.eq_def]
      simp [hsb]
  | cons c ct ih =>
    have hct := ih (fun x hx => ha x (by simp [hx]))
    have hc : c ≠ sep := ha c (by simp)
    simp only [List.cons_append]
    rw [splitOnCh.eq_def]
    simp [hct, hc]

theorem splitFirstCh_no_sep (sep : Nat) (s : Str) (h : ∀ c ∈ s, c ≠ sep) :
    splitFirstCh sep s = (s, []) := by
  induction s with
  | nil => rfl
  | cons c cs ih =>
    have hcs := ih (fun x hx => h x (by simp [hx]))
    unfold splitFirstCh
    have : (c == sep) = false := by
      have := h c (by simp)
      simp [this]
    simp [this, hcs]

theorem splitFirstCh_append (sep : Nat) (a b : Str) (ha : ∀ c ∈ a, c ≠ sep) :
    splitFirstCh sep (a ++ sep :: b) = (a, b) := by
  induction a with
  | nil =>
    simp only [List.nil_append]
    unfold splitFirstCh
    simp
  | cons c ct ih =>
    have hct := ih (fun x hx => ha x (by simp [hx]))
    simp only [List.cons_append]
    unfold splitFirstCh
    have : (c == sep) = false := by
      have := ha c (by simp)
      simp [this]
    simp [this, hct]

/-! ## The legacy `#page-N` regex -/

theorem legacyAt_none_of_not_hash (s : Str) (h : startsWithCh 35 s = false) :
    legacyAt s = none := by
  unfold legacyAt
  rw [show strLit "#page-" = 35 :: strLit "page-" from rfl]
  cases s with
  | nil => rfl
  | cons c cs =>
    simp [startsWithCh] at h
    unfold stripStr
    simp [h]

theorem legacyMatch_none (s : Str) (h : ∀ c ∈ s, c ≠ 35) : legacyMatch s = none := by
  induction s with
  | nil => rfl
  | cons c cs ih =>
    have hc : startsWithCh 35 (c :: cs) = false := by
      have := h c (by simp)
      simp [startsWithCh, this]
    unfold legacyMatch
    rw [legacyAt_none_of_not_hash _ hc]
    exact ih (fun x hx => h x (by simp [hx]))

theorem getParam_cons (k : Str) (e : Str × Str) (rest : List (Str × Str)) :
    getParam (e :: rest) k = if e.1 = k then some e.2 else getParam rest k := by
  unfold getParam
  rw [List.find?_cons]
  by_cases h : e.1 = k
  · simp [h]
  · simp [h]

/-! ## Parsing a structured `#program=...&page=...` hash -/

/-- Parsing the serialised form `program=P&page=D` (P free of `#`, `&`, `=`;
D a non-empty digit run) recovers the decoded program value and the 1-based
page number minus one. -/
theorem getStateFromHash_master (P D : Str)
    (hP : ∀ c ∈ P, c ≠ 35 ∧ c ≠ 38 ∧ c ≠ 61)
    (hD : ∀ c ∈ D, 48 ≤ c ∧ c ≤ 57) (hDne : D ≠ []) :
    getStateFromHash (35 :: (strLit "program=" ++ (P ++ (38 :: (strLit "page=" ++ D))))) =
      ⟨(if (formDecode P).isEmpty then none else some (formDecode P)),
       some (((digitsToNat D : Nat) : Int) - 1)⟩ := by
  have hprogeq : strLit "program=" = [112, 114, 111, 103, 114, 97, 109, 61] := rfl
  have hpageeq : strLit "page=" = [112, 97, 103, 101, 61] := rfl
  set rest0 : Str := strLit "program=" ++ (P ++ (38 :: (strLit "page=" ++ D))) with hrest0
  have hnohash : ∀ c ∈ rest0, c ≠ 35 := by
    intro c hc
    rw [hrest0, hprogeq, hpageeq] at hc
    simp at hc
    by_cases hcP : c ∈ P
    · exact (hP c hcP).1
    · by_cases hcD : c ∈ D
      · have := hD c hcD
        omega
      · first
        | omega
        | (simp [hcP, hcD] at hc; omega)
  have hleg0 : legacyAt (35 :: rest0) = none := by
    unfold legacyAt
    rw [show strLit "#page-" = [35, 112, 97, 103, 101, 45] from rfl]
    rw [hrest0, hprogeq]
    simp [stripStr]
  have hleg : legacyMatch (35 :: rest0) = none := by
    have h1 : legacyMatch (35 :: rest0) =
        match legacyAt (35 :: rest0) with
        | some ds => some ds
        | none => legacyMatch rest0 := rfl
    rw [h1, hleg0]
    exact legacyMatch_none rest0 hnohash
  unfold getStateFromHash
  rw [hleg]
  rw [show startsWithCh 35 (35 :: rest0) = true from rfl]
  simp only [Bool.not_true, Bool.false_eq_true, if_false]
  rw [show (35 :: rest0).drop 1 = rest0 from rfl]
  have hfdD : formDecode D = D := by
    refine formDecode_safe D ?_
    intro d hd
    have := hD d hd
    simp [isSafeCp]
    omega
  have hparams : parseParams rest0 =
      [(strLit "program", formDecode P), (strLit "page", D)] := by
    have hq : startsWithCh 63 rest0 = false := by
      rw [hrest0, hprogeq]
      rfl
    unfold parseParams
    simp only [hq, Bool.false_eq_true, if_false]
    have hsplit : splitOnCh 38 rest0 =
        (strLit "program=" ++ P) :: splitOnCh 38 (strLit "page=" ++ D) := by
      rw [hrest0, ← List.append_assoc]
      refine splitOnCh_append 38 (strLit "program=" ++ P) (strLit "page=" ++ D) ?_
      intro c hc
      rw [hprogeq] at hc
      simp at hc
      by_cases hcP : c ∈ P
      · exact (hP c hcP).2.1
      · first
        | omega
        | (simp [hcP] at hc; omega)
    have hsplit2 : splitOnCh 38 (strLit "page=" ++ D) = [strLit "page=" ++ D] := by
      refine splitOnCh_no_sep 38 _ ?_
      intro c hc
      rw [hpageeq] at hc
      simp at hc
      by_cases hcD : c ∈ D
      · have := hD c hcD
        omega
      · first
        | omega
        | (simp [hcD] at hc; omega)
    rw [hsplit, hsplit2]
    have hshape1 : strLit "program=" ++ P = [112, 114, 111, 103, 114, 97, 109] ++ 61 :: P := by
      rw [hprogeq]
      rfl
    have hshape2 : strLit "page=" ++ D = [112, 97, 103, 101] ++ 61 :: D := by
      rw [hpageeq]
      rfl
    have hsf1 : splitFirstCh 61 (strLit "program=" ++ P) =
        ([112, 114, 111, 103, 114, 97, 109], P) := by
      rw [hshape1]
      exact splitFirstCh_append 61 _ P (by decide)
    have hsf2 : splitFirstCh 61 (strLit "page=" ++ D) = ([112, 97, 103, 101], D) := by
      rw [hshape2]
      exact splitFirstCh_append 61 _ D (by decide)
    have hne1 : (strLit "program=" ++ P).isEmpty = false := by
      rw [hprogeq]
      rfl
    have hne2 : (strLit "page=" ++ D).isEmpty = false := by
      rw [hpageeq]
      rfl
    simp only [List.filterMap_cons, hne1, hne2, hsf1, hsf2, Bool.false_eq_true, if_false,
      List.filterMap_nil]
    rw [show formDecode [112, 114, 111, 103, 114, 97, 109] = strLit "program" from by decide]
    rw [show formDecode [112, 97, 103, 101] = strLit "page" from by decide]
    rw [hfdD]
  rw [hparams]
  have hgp : getParam [(strLit "program", formDecode P), (strLit "page", D)]
      (strLit "program") = some (formDecode P) := by
    rw [getParam_cons, if_pos rfl]
  have hgpage : getParam [(strLit "program", formDecode P), (strLit "page", D)]
      (strLit "page") = some D := by
    rw [getParam_cons, if_neg (by show ¬strLit "program" = strLit "page"; decide),
      getParam_cons, if_pos rfl]
  rw [hgp, hgpage]
  have hDe : D.isEmpty = false := by
    cases D with
    | nil => exact absurd rfl hDne
    | cons d ds => rfl
  simp only [hDe, Bool.false_eq_true, if_false, parseIntJS_digits D hD hDne]

/-! ## C2 — URL publication/reconciliation round-trip -/

theorem buildHash_shape (pid : Str) (hpid : pid ≠ []) (n : Nat) :
    buildHash (some pid) (some (n : Int)) =
      35 :: (strLit "program=" ++
        (formEncode pid ++ (38 :: (strLit "page=" ++ natToDigits (n + 1))))) := by
  have hpe : pid.isEmpty = false := by
    cases pid with
    | nil => exact absurd rfl hpid
    | cons c cs => rfl
  have hint : intToStr ((n : Int) + 1) = natToDigits (n + 1) := by
    unfold intToStr
    rw [if_neg (by omega), show ((n : Int) + 1).toNat = n + 1 from by omega]
  have hedig : formEncode (natToDigits (n + 1)) = natToDigits (n + 1) := by
    refine formEncode_safe _ ?_
    intro d hd
    have := natToDigits_digits (n + 1) d hd
    simp [isSafeCp]
    omega
  unfold buildHash
  simp only [hpe, Bool.false_eq_true, if_false, hint]
  simp only [List.cons_append, List.nil_append]
  simp only [serializeParams, List.map, joinAmp, serializePair, hedig]
  rw [show formEncode (strLit "program") = strLit "program" from by decide]
  rw [show formEncode (strLit "page") = strLit "page" from by decide]
  rfl

/-- C2: encoding any engine-published `(programId, pageIndex)` pair with
`buildHash` and parsing the result with `getStateFromHash` returns exactly the
same program id and the same 0-based page index. -/
theorem c2_roundtrip (pid : Str) (hpid : pid ≠ []) (hv : validStr pid = true) (n : Nat) :
    getStateFromHash (buildHash (some pid) (some (n : Int))) =
      ⟨some pid, some (n : Int)⟩ := by
  rw [buildHash_shape pid hpid n]
  rw [getStateFromHash_master (formEncode pid) (natToDigits (n + 1))
    (fun c hc => mem_formEncode_avoids pid c hc)
    (natToDigits_digits (n + 1)) (natToDigits_ne_nil (n + 1))]
  have hdec : formDecode (formEncode pid) = pid := by
    refine formDecode_formEncode pid ?_
    intro d hd
    have := List.all_eq_true.1 hv d hd
    simpa using this
  have hpe : pid.isEmpty = false := by
    cases pid with
    | nil => exact absurd rfl hpid
    | cons c cs => rfl
  rw [hdec, digitsToNat_natToDigits, hpe]
  simp only [Bool.false_eq_true, if_false]
  have : ((n + 1 : Nat) : Int) - 1 = (n : Int) := by
    push_cast
    ring
  rw [this]

/-- Witness for C2 at program id `p1`, page index 3. -/
theorem c2_roundtrip_witness :
    getStateFromHash (buildHash (some (strLit "p1")) (some (3 : Int))) =
      ⟨some (strLit "p1"), some (3 : Int)⟩ :=
  c2_roundtrip (strLit "p1") (by decide) (by decide) 3

/-! ## C5 — how the parser actually treats the page component -/

/-- C5 counterexample: the hash `#program=p1&page=0` carries the non-positive
page number 0, yet the parser honours it, yielding internal page index `-1` —
neither `null` (not honored) nor the claimed default index 0. -/
theorem c5_counterexample :
    getStateFromHash (strLit "#program=p1&page=0") = ⟨some (strLit "p1"), some (-1)⟩ ∧
    (getStateFromHash (strLit "#program=p1&page=0")).pageIndex ≠ none ∧
    (getStateFromHash (strLit "#program=p1&page=0")).pageIndex ≠ some 0 := by
  decide

/-- C5 (amended): a numeric page component is honoured whenever `parseInt`
yields an integer — including 0 and other non-positive values — and the
resulting internal index is the parsed value minus 1 (1-based URLs, 0-based
indices); an invalid or missing page component yields no page index from the
parser (`null`), with the default to index 0 applied downstream (at `init`);
the legacy `#page-5` yields page index 4 and no program id. -/
theorem c5_amended :
    getStateFromHash (strLit "#page-5") = ⟨none, some 4⟩ ∧
    (∀ m : Nat, getStateFromHash (strLit "#program=p1&page=" ++ natToDigits m) =
      ⟨some (strLit "p1"), some ((m : Int) - 1)⟩) ∧
    getStateFromHash (strLit "#program=p1&page=abc") = ⟨some (strLit "p1"), none⟩ ∧
    getStateFromHash (strLit "#program=p1") = ⟨some (strLit "p1"), none⟩ ∧
    initSelectPage (getStateFromHash (strLit "#program=p1&page=abc"))
      (getStoredState StoredCell.absent) = 0 := by
  refine ⟨by decide, ?_, by decide, by decide, by decide⟩
  intro m
  rw [show strLit "#program=p1&page=" ++ natToDigits m =
    35 :: (strLit "program=" ++ (strLit "p1" ++ (38 :: (strLit "page=" ++ natToDigits m))))
    from rfl]
  rw [getStateFromHash_master (strLit "p1") (natToDigits m) (by decide)
    (natToDigits_digits m) (natToDigits_ne_nil m)]
  rw [digitsToNat_natToDigits]
  rw [show formDecode (strLit "p1") = strLit "p1" from by decide]
  rfl

/-! ## C7 — manifest modules are stable-sorted by `order` -/

theorem mem_insertModule (x z : Module) (l : List Module) :
    z ∈ insertModule x l → z = x ∨ z ∈ l := by
  induction l with
  | nil => simp [insertModule]
  | cons y ys ih =>
    intro hz
    unfold insertModule at hz
    by_cases h : x.order ≤ y.order
    · rw [if_pos h] at hz
      simp at hz
      rcases hz with hz | hz | hz
      · exact Or.inl hz
      · exact Or.inr (by simp [hz])
      · exact Or.inr (by simp [hz])
    · rw [if_neg h] at hz
      simp at hz
      rcases hz with hz | hz
      · right
        simp [hz]
      · rcases ih hz with h1 | h1
        · exact Or.inl h1
        · right
          simp [h1]

theorem pairwise_insertModule (x : Module) (l : List Module)
    (h : l.Pairwise (fun a b => a.order ≤ b.order)) :
    (insertModule x l).Pairwise (fun a b => a.order ≤ b.order) := by
  induction l with
  | nil => simp [insertModule]
  | cons y ys ih =>
    rw [List.pairwise_cons] at h
    obtain ⟨hy, hys⟩ := h
    unfold insertModule
    by_cases hxy : x.order ≤ y.order
    · rw [if_pos hxy]
      refine List.Pairwise.cons ?_ (List.Pairwise.cons hy hys)
      intro z hz
      simp at hz
      rcases hz with hz | hz
      · rw [hz]
        exact hxy
      · exact le_trans hxy (hy z hz)
    · rw [if_neg hxy]
      refine List.Pairwise.cons ?_ (ih hys)
      intro z hz
      rcases mem_insertModule x z ys hz with h1 | h1
      · rw [h1]
        omega
      · exact hy z h1

theorem perm_insertModule (x : Module) (l : List Module) :
    (insertModule x l).Perm (x :: l) := by
  induction l with
  | nil => simp [insertModule]
  | cons y ys ih =>
    unfold insertModule
    by_cases h : x.order ≤ y.order
    · rw [if_pos h]
    · rw [if_neg h]
      exact List.Perm.trans (List.Perm.cons y ih) (List.Perm.swap x y ys)

theorem sortModules_perm (l : List Module) : (sortModules l).Perm l := by
  induction l with
  | nil => simp [sortModules]
  | cons x xs ih =>
    exact List.Perm.trans (perm_insertModule x (sortModules xs)) (List.Perm.cons x ih)

theorem sortModules_pairwise (l : List Module) :
    (sortModules l).Pairwise (fun a b => a.order ≤ b.order) := by
  induction l with
  | nil => simp [sortModules]
  | cons x xs ih => exact pairwise_insertModule x (sortModules xs) ih

theorem filter_insertModule (x : Module) (l : List Module) (k : Int) :
    (insertModule x l).filter (fun m => m.order = k) =
      (x :: l).filter (fun m => m.order = k) := by
  induction l with
  | nil => rfl
  | cons y ys ih =>
    unfold insertModule
    by_cases h : x.order ≤ y.order
    · rw [if_pos h]
    · rw [if_neg h]
      by_cases hyk : y.order = k
      · have hxk : ¬(x.order = k) := by omega
        simp [List.filter_cons, hyk, hxk, ih]
      · by_cases hxk : x.order = k
        · simp [List.filter_cons, hyk, hxk, ih]
        · simp [List.filter_cons, hyk, hxk, ih]

theorem sortModules_filter (l : List Module) (k : Int) :
    (sortModules l).filter (fun m => m.order = k) = l.filter (fun m => m.order = k) := by
  induction l with
  | nil => rfl
  | cons x xs ih =>
    rw [show sortModules (x :: xs) = insertModule x (sortModules xs) from rfl]
    rw [filter_insertModule]
    simp only [List.filter_cons]
    rw [ih]

/-- C7: `loadManifest` sorts the fetched module list ascending by `order` with
a stable sort: the result is `order`-sorted, a permutation of the manifest
order, and elements of equal `order` keep their original relative order
(the filter at each order value is unchanged); on the two-module example the
active sequence is `[m2, m1]` and page index 1 addresses `m1`. -/
theorem c7_loadManifest_sorted :
    (∀ ms : List Module, (sortModules ms).Pairwise (fun a b => a.order ≤ b.order)) ∧
    (∀ ms : List Module, (sortModules ms).Perm ms) ∧
    (∀ (ms : List Module) (k : Int),
      (sortModules ms).filter (fun m => m.order = k) = ms.filter (fun m => m.order = k)) ∧
    sortModules [exModuleA, exModuleB] = [exModuleB, exModuleA] ∧
    getAt? (sortModules [exModuleA, exModuleB]) 1 = some exModuleA ∧
    (∀ (mF : Str → Option (List Module)) (p : Str),
      loadManifest mF p = (mF p).map sortModules) := by
  exact ⟨sortModules_pairwise, sortModules_perm, sortModules_filter,
    by decide, by decide, fun mF p => rfl⟩

/-! ## C3 — startup reconciliation priority and scenario -/

/-- The hash parser never reports an empty program id (an empty `program`
parameter is normalised to `null`). -/
theorem getStateFromHash_programId_ne_nil (h : Str) :
    ∀ p, (getStateFromHash h).programId = some p → p ≠ [] := by
  unfold getStateFromHash
  split
  · intro p hp
    simp at hp
  · split
    · intro p hp
      simp at hp
    · intro p hp
      simp only at hp
      split at hp
      · split at hp
        · simp at hp
        · rename_i s hs hse
          simp at hp
          rw [← hp]
          intro hnil
          rw [hnil] at hse
          exact hse rfl
      · simp at hp

theorem jsOr_truthy (p : Str) (hp : p ≠ []) (b : Option Str) : jsOr (some p) b = some p := by
  unfold jsOr jsTruthyStr
  cases p with
  | nil => exact absurd rfl hp
  | cons c cs => rfl

theorem jsOr_none (b : Option Str) : jsOr none b = b := rfl

theorem jsOr_empty (b : Option Str) : jsOr (some []) b = b := rfl

theorem sortModules_length (l : List Module) : (sortModules l).length = l.length :=
  (sortModules_perm l).length_eq

/-- Unfolding `switchProgram` on a found program with a loadable manifest. -/
theorem switchProgram_eq (mF : Str → Option (List Module))
    (cF : Str → Option PageContent) (cat : List Program) (st : AppState)
    (programId : Str) (pageIndex : Int) (prog : Program) (ms : List Module)
    (hfind : cat.find? (fun p => p.id = programId) = some prog)
    (hmf : mF prog.manifest = some ms) :
    switchProgram mF cF cat st programId pageIndex =
      ⟨(loadPage cF { st with currentProgram := some prog, modules := sortModules ms }
          (min (max pageIndex 0) (max (((sortModules ms).length : Int) - 1) 0))).1,
       Eff.fetchManifest prog.manifest ::
         (loadPage cF { st with currentProgram := some prog, modules := sortModules ms }
           (min (max pageIndex 0) (max (((sortModules ms).length : Int) - 1) 0))).2,
       false⟩ := by
  unfold switchProgram
  simp only [hfind]
  simp only [show loadManifest mF prog.manifest = some (sortModules ms) from by
    simp [loadManifest, hmf]]

/-- A found program with a loadable non-empty manifest: `switchProgram` ends on
that program with the requested index clamped into `[0, moduleCount - 1]`. -/
theorem switchProgram_state (mF : Str → Option (List Module))
    (cF : Str → Option PageContent) (cat : List Program) (st : AppState)
    (programId : Str) (pageIndex : Int) (prog : Program) (ms : List Module)
    (hfind : cat.find? (fun p => p.id = programId) = some prog)
    (hmf : mF prog.manifest = some ms) (hne : ms ≠ []) :
    (switchProgram mF cF cat st programId pageIndex).threw = false ∧
    (switchProgram mF cF cat st programId pageIndex).state.currentProgram = some prog ∧
    (switchProgram mF cF cat st programId pageIndex).state.currentPageIndex =
      min (max pageIndex 0) ((ms.length : Int) - 1) := by
  have hlen1 : 1 ≤ ms.length := by
    cases ms with
    | nil => exact absurd rfl hne
    | cons m mt => simp
  rw [switchProgram_eq mF cF cat st programId pageIndex prog ms hfind hmf]
  have hrange : ¬(min (max pageIndex 0) (max (((sortModules ms).length : Int) - 1) 0) < 0 ∨
      (((sortModules ms).length : Int) ≤
        min (max pageIndex 0) (max (((sortModules ms).length : Int) - 1) 0))) := by
    rw [sortModules_length]
    omega
  obtain ⟨hidx, hprog2, _, _⟩ := loadPage_inRange_state cF
    { st with currentProgram := some prog, modules := sortModules ms }
    (min (max pageIndex 0) (max (((sortModules ms).length : Int) - 1) 0)) hrange
  refine ⟨rfl, ?_, ?_⟩
  · simp only []
    rw [hprog2]
  · simp only []
    rw [hidx, sortModules_length]
    omega

/-- C3: at startup the target program is the hash's program id when present,
else the durable snapshot's (truthy) program id, else none (dashboard); and in
the stored-snapshot scenario `{programId: "p1", pageIndex: 3}` with an empty
hash, `init` selects `p1` and clamps page index 3 to the module count. -/
theorem c3_startup_reconciliation :
    (∀ (h : Str) (cell : StoredCell) (p : Str),
      (getStateFromHash h).programId = some p →
      initSelectProgram (getStateFromHash h) (getStoredState cell) = some p) ∧
    (∀ (h : Str) (cell : StoredCell) (q : Str),
      (getStateFromHash h).programId = none →
      (getStoredState cell).programId = some q → q ≠ [] →
      initSelectProgram (getStateFromHash h) (getStoredState cell) = some q) ∧
    (∀ (h : Str) (cell : StoredCell),
      (getStateFromHash h).programId = none →
      ((getStoredState cell).programId = none ∨ (getStoredState cell).programId = some []) →
      initSelectProgram (getStateFromHash h) (getStoredState cell) = none) ∧
    (∀ (mF : Str → Option (List Module)) (cF : Str → Option PageContent)
        (ms : List Module) (prog0 : Progress),
      ms ≠ [] → mF exProgram.manifest = some ms →
      (init (some [exProgram]) mF cF (strLit "")
          (StoredCell.snap ⟨JVal.jstr (strLit "p1"), JVal.jint 3⟩) prog0).state.currentProgram
        = some exProgram ∧
      (init (some [exProgram]) mF cF (strLit "")
          (StoredCell.snap ⟨JVal.jstr (strLit "p1"), JVal.jint 3⟩) prog0).state.currentPageIndex
        = min 3 ((ms.length : Int) - 1)) := by
  refine ⟨?_, ?_, ?_, ?_⟩
  · intro h cell p hp
    unfold initSelectProgram
    rw [hp, jsOr_truthy p (getStateFromHash_programId_ne_nil h p hp)]
  · intro h cell q hnone hq hqne
    unfold initSelectProgram
    rw [hnone, hq, jsOr_none, jsOr_truthy q hqne]
  · intro h cell hnone hsnone
    unfold initSelectProgram
    rw [hnone, jsOr_none]
    rcases hsnone with h1 | h1
    · rw [h1, jsOr_none]
    · rw [h1, jsOr_empty]
  · intro mF cF ms prog0 hne hmf
    have hhash : getStateFromHash (strLit "") = ⟨none, none⟩ := by decide
    have hstored : getStoredState (StoredCell.snap ⟨JVal.jstr (strLit "p1"), JVal.jint 3⟩) =
        ⟨some (strLit "p1"), some 3⟩ := rfl
    have hsel : initSelectProgram (getStateFromHash (strLit ""))
        (getStoredState (StoredCell.snap ⟨JVal.jstr (strLit "p1"), JVal.jint 3⟩)) =
        some (strLit "p1") := by
      rw [hhash, hstored]
      rfl
    have hpage : initSelectPage (getStateFromHash (strLit ""))
        (getStoredState (StoredCell.snap ⟨JVal.jstr (strLit "p1"), JVal.jint 3⟩)) = 3 := by
      rw [hhash, hstored]
      rfl
    have hfind : List.find? (fun p => p.id = strLit "p1") [exProgram] = some exProgram := by
      decide
    obtain ⟨hthrew, hprog, hidx⟩ := switchProgram_state mF cF [exProgram]
      (initialState prog0) (strLit "p1") 3 exProgram ms hfind hmf hne
    have hinit : init (some [exProgram]) mF cF (strLit "")
        (StoredCell.snap ⟨JVal.jstr (strLit "p1"), JVal.jint 3⟩) prog0 =
        switchProgram mF cF [exProgram] (initialState prog0) (strLit "p1") 3 := by
      unfold init
      simp only [hsel, hpage, hthrew, Bool.false_eq_true, if_false]
    rw [hinit, hprog, hidx]
    constructor
    · rfl
    · omega

/-- Witness for C3 at a concrete manifest. -/
theorem c3_startup_reconciliation_witness :
    (init (some [exProgram]) (fun _ => some [exModuleA, exModuleB]) okFetch (strLit "")
        (StoredCell.snap ⟨JVal.jstr (strLit "p1"), JVal.jint 3⟩) []).state.currentProgram
      = some exProgram ∧
    (init (some [exProgram]) (fun _ => some [exModuleA, exModuleB]) okFetch (strLit "")
        (StoredCell.snap ⟨JVal.jstr (strLit "p1"), JVal.jint 3⟩) []).state.currentPageIndex
      = min 3 (([exModuleA, exModuleB].length : Int) - 1) :=
  c3_startup_reconciliation.2.2.2 (fun _ => some [exModuleA, exModuleB]) okFetch
    [exModuleA, exModuleB] [] (by decide) rfl

end Training
